import Mathlib

/-!
Verification of `srs-resolver` (dszlage/srs-resolver), a TCP service that
decodes SRS-rewritten mail addresses.

Shallow embedding: Go strings are modelled as `List Char`; the functions
`decodeSRS`, `isCleanEmail` and `handle` from `main.go` are translated
directly.  Fallible Go functions returning `(T, error)` become `Option T`.
The side effects of one connection (the `fmt.Fprintf` writes and the deferred
`conn.Close()`) are collected in a `ConnResult` record.  The order of the
operations in `main` is modelled as a list of startup events.
-/

/-- Semantics of Go `strings.Index`-style search for a one-character
separator: `none` when the separator does not occur, otherwise the part
strictly before the first occurrence and the part strictly after it. -/
def splitFirst (sep : Char) : List Char → Option (List Char × List Char)
  | [] => none
  | c :: cs =>
    if c = sep then some ([], cs)
    else
      match splitFirst sep cs with
      | none => none
      | some (p, q) => some (c :: p, q)

/-- Semantics of Go `strings.SplitN(s, sep, n)` for `n ≥ 0` and a
one-character separator `sep`: at most `n` fields, the last field is the
unsplit remainder; `n = 0` yields no fields. -/
def splitCapped (sep : Char) : Nat → List Char → List (List Char)
  | 0, _ => []
  | 1, s => [s]
  | n + 2, s =>
    match splitFirst sep s with
    | none => [s]
    | some (p, q) => p :: splitCapped sep (n + 1) q

/-- Semantics of Go `strings.Split(s, sep)` for a one-character separator:
the Go implementation splits into `Count(s, sep) + 1` fields. -/
def goSplit (sep : Char) (s : List Char) : List (List Char) :=
  splitCapped sep (s.count sep + 1) s

/-- The characters Go `unicode.IsSpace` accepts in the Latin-1 range;
used by `strings.TrimSpace`.  (The addresses in play are ASCII.) -/
def isGoSpace (c : Char) : Bool :=
  c = ' ' || c = '\t' || c = '\n' || c = '\x0b' || c = '\x0c' || c = '\r' ||
  c = '\u0085' || c = ' '

/-- Semantics of Go `strings.TrimSpace`: drop leading and trailing
whitespace. -/
def trimSpace (s : List Char) : List Char :=
  ((s.dropWhile isGoSpace).reverse.dropWhile isGoSpace).reverse

/-- The constant `notAllowedChars = " <>(),;=\""` from main.go. -/
def notAllowedChars : List Char := " <>(),;=\"".toList

/-- Semantics of Go `strings.ContainsAny(s, chars)`: some character of `s`
occurs in `chars`. -/
def containsAny (s chars : List Char) : Bool :=
  s.any (fun c => chars.contains c)

/-- Function decodeSRS from main.go: split on `=` into at most five fields; error
(`none`) unless exactly five result; field 3 is the original domain, field 4
the local segment; if the local segment contains `@`, keep only the part
before the first `@`; result `local@domain`. -/
def decodeSRS (srs : List Char) : Option (List Char) :=
  let parts := splitCapped '=' 5 srs
  if parts.length ≠ 5 then
    none
  else
    let domain := parts.getD 3 []
    let locSeg := parts.getD 4 []
    if locSeg.contains '@' then
      let user := (goSplit '@' locSeg).getD 0 []
      some (user ++ '@' :: domain)
    else
      some (locSeg ++ '@' :: domain)

/-- Function isCleanEmail from main.go: no forbidden character, exactly one `@`,
non-empty local part, domain of length at least 3 containing a dot. -/
def isCleanEmail (s : List Char) : Bool :=
  if containsAny s notAllowedChars then
    false
  else if s.count '@' ≠ 1 then
    false
  else
    let parts := goSplit '@' s
    if (parts.getD 0 []).length = 0 || (parts.getD 1 []).length < 3 then
      false
    else if ¬ (parts.getD 1 []).contains '.' then
      false
    else
      true

/-- The TOML configuration record from main.go (all fields are strings). -/
structure Config where
  listen : List Char
  logFile : List Char
  logLevel : List Char
  fallbackAddress : List Char
  dropUser : List Char
  dropGroup : List Char
deriving DecidableEq, Repr

/-- Outcome of `reader.ReadString('\n')` in `handle`: a line, or an error. -/
inductive ReadResult where
  | ok (line : List Char)
  | err
deriving DecidableEq, Repr

/-- Observable effect of one `handle` invocation: the lines written to the
connection by `fmt.Fprintf`, and whether the connection was closed (the
`defer conn.Close()` closes it on every path). -/
structure ConnResult where
  writes : List (List Char)
  closed : Bool
deriving DecidableEq, Repr

/-- The `fmt.Fprintf(conn, "200 %s\n", a)` payload. -/
def ok200 (a : List Char) : List Char := "200 ".toList ++ a ++ ['\n']

/-- The second half of `handle` (main.go lines 189-221): given the extracted
candidate address, produce the response line. Mirrors the branch structure:
non-SRS addresses pass through when clean and otherwise hit the fallback
policy; SRS addresses are decoded, with decode failures hitting the fallback
policy. -/
def respondToAddress (address : List Char) (cfg : Config) : List Char :=
  if ¬ ("SRS0=".toList.isPrefixOf address || "SRS1=".toList.isPrefixOf address) then
    if isCleanEmail address then
      ok200 address
    else if cfg.fallbackAddress ≠ [] then
      ok200 cfg.fallbackAddress
    else
      "500 invalid request\n".toList
  else
    match decodeSRS address with
    | none =>
      if cfg.fallbackAddress ≠ [] then
        ok200 cfg.fallbackAddress
      else
        "500 invalid request\n".toList
    | some decoded => ok200 decoded

/-- Function handle from main.go: read one line (modelled by `ReadResult`), trim it,
require the `get ` command token, extract the trimmed remainder as the
candidate address and respond; the deferred close runs on every path. -/
def handle (r : ReadResult) (cfg : Config) : ConnResult :=
  match r with
  | .err => ⟨["500 read error\n".toList], true⟩
  | .ok rawLine =>
    let line := trimSpace rawLine
    if ¬ "get ".toList.isPrefixOf line then
      ⟨["500 invalid request\n".toList], true⟩
    else
      ⟨[respondToAddress (trimSpace (line.drop 4)) cfg], true⟩

/-- The operations of `main` (src/unnamed/part_001), in program order, on the
path where every step succeeds. -/
inductive StartupEvent where
  | loadConfig
  | initLogging
  | dropPrivileges
  | listenBind
  | acceptLoop
deriving DecidableEq, Repr

/-- Function main from src/unnamed/part_001 lines 136-168: load the configuration,
initialise logging, drop privileges, bind the listening socket, enter the
accept loop. -/
def mainStartupOrder : List StartupEvent :=
  [.loadConfig, .initLogging, .dropPrivileges, .listenBind, .acceptLoop]

/-- A configuration with no fallback address configured. -/
def cfgNoFallback : Config := ⟨[], [], [], [], [], []⟩

/-- A configuration with fallback address `root@example.com`. -/
def cfgWithFallback : Config := ⟨[], [], [], "root@example.com".toList, [], []⟩

/-! ### Lemmas about the split helpers -/

theorem splitFirst_eq_some_elim {sep : Char} :
    ∀ {s p q : List Char}, splitFirst sep s = some (p, q) →
      s = p ++ sep :: q ∧ sep ∉ p := by
  intro s
  induction s with
  | nil => intro p q h; simp [splitFirst] at h
  | cons c cs ih =>
    intro p q h
    by_cases hc : c = sep
    · subst hc
      simp [splitFirst] at h
      obtain ⟨hp, hq⟩ := h
      subst hp; subst hq
      simp
    · simp only [splitFirst, if_neg hc] at h
      cases hrec : splitFirst sep cs with
      | none => rw [hrec] at h; simp at h
      | some pq =>
        obtain ⟨p0, q0⟩ := pq
        rw [hrec] at h
        simp at h
        obtain ⟨hp, hq⟩ := h
        obtain ⟨hs, hmem⟩ := ih hrec
        subst hp; subst hq
        constructor
        · simp [hs]
        · simp [List.mem_cons, hmem]
          intro hcs
          exact hc hcs.symm

theorem splitFirst_eq_none_iff (sep : Char) (s : List Char) :
    splitFirst sep s = none ↔ sep ∉ s := by
  induction s with
  | nil => simp [splitFirst]
  | cons c cs ih =>
    by_cases hc : c = sep
    · subst hc
      simp [splitFirst]
    · simp only [splitFirst, if_neg hc]
      cases hrec : splitFirst sep cs with
      | none =>
        simp only [List.mem_cons]
        constructor
        · intro _ hmem
          rcases hmem with hmem | hmem
          · exact hc hmem.symm
          · exact (ih.mp hrec) hmem
        · intro _; trivial
      | some pq =>
        obtain ⟨p0, q0⟩ := pq
        simp only [List.mem_cons]
        constructor
        · intro h; simp at h
        · intro h
          exfalso
          apply h
          right
          have := splitFirst_eq_some_elim hrec
          rw [this.1]
          simp

theorem splitFirst_append (sep : Char) (A B : List Char) (h : sep ∉ A) :
    splitFirst sep (A ++ sep :: B) = some (A, B) := by
  induction A with
  | nil => simp [splitFirst]
  | cons c cs ih =>
    have hc : c ≠ sep := by
      intro hcs
      exact h (hcs ▸ List.mem_cons_self c cs)
    have hcs : sep ∉ cs := fun hm => h (List.mem_cons_of_mem c hm)
    simp only [List.cons_append, splitFirst, if_neg hc, List.append_eq, ih hcs]

theorem splitCapped_length (sep : Char) :
    ∀ (n : Nat) (s : List Char), 1 ≤ n →
      (splitCapped sep n s).length = min (s.count sep + 1) n
  | 0, _, h => by omega
  | 1, s, _ => by
    simp only [splitCapped, List.length_singleton]
    omega
  | n + 2, s, _ => by
    cases hrec : splitFirst sep s with
    | none =>
      have hmem : sep ∉ s := (splitFirst_eq_none_iff sep s).mp hrec
      simp only [splitCapped, hrec, List.length_singleton,
        List.count_eq_zero.mpr hmem]
      omega
    | some pq =>
      obtain ⟨p, q⟩ := pq
      obtain ⟨hs, hp⟩ := splitFirst_eq_some_elim hrec
      have hq := splitCapped_length sep (n + 1) q (by omega)
      have hcount : s.count sep = q.count sep + 1 := by
        subst hs
        simp [List.count_append, List.count_cons,
          List.count_eq_zero.mpr hp]
      simp only [splitCapped, hrec, List.length_cons, hq, hcount]
      omega

theorem takeWhile_bne_of_not_mem (a : Char) (A : List Char) (h : a ∉ A) :
    A.takeWhile (fun c => c != a) = A := by
  induction A with
  | nil => rfl
  | cons c cs ih =>
    have hc : c ≠ a := fun hca => h (hca ▸ List.mem_cons_self c cs)
    have hcs : a ∉ cs := fun hm => h (List.mem_cons_of_mem c hm)
    simp [List.takeWhile_cons, bne_iff_ne, hc, ih hcs]

theorem takeWhile_bne_append (a : Char) (A B : List Char) (h : a ∉ A) :
    (A ++ a :: B).takeWhile (fun c => c != a) = A := by
  induction A with
  | nil => simp [List.takeWhile_cons]
  | cons c cs ih =>
    have hc : c ≠ a := fun hca => h (hca ▸ List.mem_cons_self c cs)
    have hcs : a ∉ cs := fun hm => h (List.mem_cons_of_mem c hm)
    simp [List.takeWhile_cons, bne_iff_ne, hc, ih hcs]

theorem dropWhile_bne_append (a : Char) (A B : List Char) (h : a ∉ A) :
    (A ++ a :: B).dropWhile (fun c => c != a) = a :: B := by
  induction A with
  | nil => simp [List.dropWhile_cons]
  | cons c cs ih =>
    have hc : c ≠ a := fun hca => h (hca ▸ List.mem_cons_self c cs)
    have hcs : a ∉ cs := fun hm => h (List.mem_cons_of_mem c hm)
    simp [List.dropWhile_cons, bne_iff_ne, hc, ih hcs]

theorem count_eq_one_split {a : Char} :
    ∀ {s : List Char}, s.count a = 1 →
      ∃ u v, s = u ++ a :: v ∧ a ∉ u ∧ a ∉ v := by
  intro s
  induction s with
  | nil => intro h; simp at h
  | cons c cs ih =>
    intro h
    by_cases hc : c = a
    · subst hc
      have hcs : cs.count c = 0 := by
        have := List.count_cons_self c cs
        omega
      exact ⟨[], cs, by simp, by simp, List.count_eq_zero.mp hcs⟩
    · have hcs : cs.count a = 1 := by
        rwa [List.count_cons_of_ne (Ne.symm hc)] at h
      obtain ⟨u, v, hs, hu, hv⟩ := ih hcs
      refine ⟨c :: u, v, by simp [hs], ?_, hv⟩
      simp [List.mem_cons, hu]
      intro hca
      exact hc hca.symm

theorem goSplit_two_of_split (a : Char) (u v : List Char)
    (hu : a ∉ u) (hv : a ∉ v) :
    goSplit a (u ++ a :: v) = [u, v] := by
  have hcount : (u ++ a :: v).count a = 1 := by
    simp [List.count_append, List.count_cons,
      List.count_eq_zero.mpr hu, List.count_eq_zero.mpr hv]
  simp only [goSplit, hcount]
  simp only [splitCapped, splitFirst_append a u v hu]

theorem goSplit_head_takeWhile (sep : Char) (s : List Char) :
    (goSplit sep s).getD 0 [] = s.takeWhile (fun c => c != sep) := by
  cases hrec : splitFirst sep s with
  | none =>
    have hmem : sep ∉ s := (splitFirst_eq_none_iff sep s).mp hrec
    have hcount : s.count sep = 0 := List.count_eq_zero.mpr hmem
    simp only [goSplit, hcount]
    simp [splitCapped, takeWhile_bne_of_not_mem sep s hmem]
  | some pq =>
    obtain ⟨p, q⟩ := pq
    obtain ⟨hs, hp⟩ := splitFirst_eq_some_elim hrec
    have hcount : 1 ≤ s.count sep := by
      subst hs
      simp [List.count_append, List.count_cons]
      omega
    obtain ⟨k, hk⟩ : ∃ k, s.count sep = k + 1 :=
      ⟨s.count sep - 1, by omega⟩
    subst hs
    simp only [goSplit, hk]
    simp only [splitCapped, splitFirst_append sep p q hp,
      takeWhile_bne_append sep p q hp, List.getD_cons_zero]

theorem splitCapped_step (sep : Char) (n : Nat) (A B : List Char)
    (hA : sep ∉ A) :
    splitCapped sep (n + 2) (A ++ sep :: B) = A :: splitCapped sep (n + 1) B := by
  simp only [splitCapped, splitFirst_append sep A B hA]

theorem splitCapped_five (sep : Char) (A B C D E : List Char)
    (hA : sep ∉ A) (hB : sep ∉ B) (hC : sep ∉ C) (hD : sep ∉ D) :
    splitCapped sep 5 (A ++ sep :: (B ++ sep :: (C ++ sep :: (D ++ sep :: E)))) =
      [A, B, C, D, E] := by
  rw [show (5 : Nat) = 3 + 2 from rfl, splitCapped_step sep 3 A _ hA]
  rw [show (3 + 1 : Nat) = 2 + 2 from rfl, splitCapped_step sep 2 B _ hB]
  rw [show (2 + 1 : Nat) = 1 + 2 from rfl, splitCapped_step sep 1 C _ hC]
  rw [show (1 + 1 : Nat) = 0 + 2 from rfl, splitCapped_step sep 0 D _ hD]
  rfl

theorem contains_eq_false_of_not_mem {a : Char} {l : List Char} (h : a ∉ l) :
    l.contains a = false := by
  simp [h]

theorem contains_eq_true_of_mem {a : Char} {l : List Char} (h : a ∈ l) :
    l.contains a = true := by
  simp [h]

/-- The five fields `decodeSRS` sees on a well-shaped SRS string. -/
theorem decodeSRS_fields (tag H T D L : List Char)
    (htag : '=' ∉ tag) (hH : '=' ∉ H) (hT : '=' ∉ T) (hD : '=' ∉ D) :
    splitCapped '=' 5 (tag ++ '=' :: (H ++ '=' :: (T ++ '=' :: (D ++ '=' :: L)))) =
      [tag, H, T, D, L] :=
  splitCapped_five '=' tag H T D L htag hH hT hD

/-- Claim C2: for every string of the shape `SRS0=H=T=D=L` or `SRS1=H=T=D=L`,
where `H`, `T` and `D` contain no `=` and `L` contains no `@`, `decodeSRS`
succeeds and returns exactly the string `L@D`. -/
theorem C2_decodeSRS_plain_local (tag H T D L : List Char)
    (htag : tag = "SRS0".toList ∨ tag = "SRS1".toList)
    (hH : '=' ∉ H) (hT : '=' ∉ T) (hD : '=' ∉ D) (hL : '@' ∉ L) :
    decodeSRS (tag ++ '=' :: (H ++ '=' :: (T ++ '=' :: (D ++ '=' :: L)))) =
      some (L ++ '@' :: D) := by
  have htag0 : '=' ∉ tag := by
    rcases htag with h | h <;> subst h <;> decide
  have hparts := decodeSRS_fields tag H T D L htag0 hH hT hD
  simp [decodeSRS, hparts, contains_eq_false_of_not_mem hL]
  intro hmem
  exact absurd hmem hL

/-- Claim C2, instantiated: `SRS0=abc123=12345=example.com=damian` decodes to
`damian@example.com`. -/
theorem C2_decodeSRS_plain_local_witness :
    decodeSRS ("SRS0".toList ++ '=' :: ("abc123".toList ++ '=' ::
        ("12345".toList ++ '=' :: ("example.com".toList ++ '=' ::
          "damian".toList)))) =
      some ("damian".toList ++ '@' :: "example.com".toList) :=
  C2_decodeSRS_plain_local "SRS0".toList "abc123".toList "12345".toList
    "example.com".toList "damian".toList (Or.inl rfl)
    (by decide) (by decide) (by decide) (by decide)

/-- Claim C3: for every string of the shape `SRS0=H=T=D=L` or `SRS1=H=T=D=L`
where the fifth field `L` contains at least one `@`, `decodeSRS` succeeds and
returns `L1@D`, where `L1` is the substring of `L` strictly before its first
`@` and `D` is the fourth field: the configured original domain always
replaces the embedded domain. -/
theorem C3_decodeSRS_embedded_at (tag H T D L : List Char)
    (htag : tag = "SRS0".toList ∨ tag = "SRS1".toList)
    (hH : '=' ∉ H) (hT : '=' ∉ T) (hD : '=' ∉ D) (hL : '@' ∈ L) :
    decodeSRS (tag ++ '=' :: (H ++ '=' :: (T ++ '=' :: (D ++ '=' :: L)))) =
      some (L.takeWhile (fun c => c != '@') ++ '@' :: D) := by
  have htag0 : '=' ∉ tag := by
    rcases htag with h | h <;> subst h <;> decide
  have hparts := decodeSRS_fields tag H T D L htag0 hH hT hD
  simp [decodeSRS, hparts, hL, contains_eq_true_of_mem hL]
  simpa using goSplit_head_takeWhile '@' L

/-- Claim C3, instantiated: `SRS0=abc123=12345=example.com=user@forwarder.com`
decodes with local part `user` and the configured domain `example.com`. -/
theorem C3_decodeSRS_embedded_at_witness :
    decodeSRS ("SRS0".toList ++ '=' :: ("abc123".toList ++ '=' ::
        ("12345".toList ++ '=' :: ("example.com".toList ++ '=' ::
          "user@forwarder.com".toList)))) =
      some ("user@forwarder.com".toList.takeWhile (fun c => c != '@') ++
        '@' :: "example.com".toList) :=
  C3_decodeSRS_embedded_at "SRS0".toList "abc123".toList "12345".toList
    "example.com".toList "user@forwarder.com".toList (Or.inl rfl)
    (by decide) (by decide) (by decide) (by decide)

/-- The number of fields `decodeSRS` sees: `strings.SplitN` with cap 5
returns `min (count + 1) 5` fields. -/
theorem decodeSRS_field_count (s : List Char) :
    (splitCapped '=' 5 s).length = min (s.count '=' + 1) 5 :=
  splitCapped_length '=' 5 s (by omega)

/-- Claim C4: `decodeSRS` returns an error if and only if splitting the input
on `=` at the first four occurrences yields fewer than 5 fields;
equivalently, for every `SRS0=`/`SRS1=`-prefixed string, decoding fails
exactly when the string contains fewer than four `=` characters. -/
theorem C4_decodeSRS_error_iff (s : List Char)
    (_hpre : "SRS0=".toList.isPrefixOf s = true ∨
      "SRS1=".toList.isPrefixOf s = true) :
    (decodeSRS s = none ↔ (splitCapped '=' 5 s).length < 5) ∧
      (decodeSRS s = none ↔ s.count '=' < 4) := by
  have hlen := decodeSRS_field_count s
  have hnone : decodeSRS s = none ↔ (splitCapped '=' 5 s).length ≠ 5 := by
    by_cases h : (splitCapped '=' 5 s).length ≠ 5
    · simp [decodeSRS, if_pos h, h]
    · simp only [decodeSRS, if_neg h]
      constructor
      · intro h2
        exfalso
        revert h2
        split <;> simp
      · intro h2
        exact absurd h2 h
  constructor
  · rw [hnone]; omega
  · rw [hnone]; omega

/-- Claim C4, instantiated: `SRS0=incomplete` (one `=`) fails to decode and
`SRS0====` (four `=`) decodes. -/
theorem C4_decodeSRS_error_iff_witness :
    decodeSRS "SRS0=incomplete".toList = none ∧
      decodeSRS "SRS0====".toList ≠ none := by
  constructor
  · exact ((C4_decodeSRS_error_iff "SRS0=incomplete".toList
      (Or.inl (by decide))).2).mpr (by decide)
  · intro hnone
    have := ((C4_decodeSRS_error_iff "SRS0====".toList
      (Or.inl (by decide))).2).mp hnone
    exact absurd this (by decide)

theorem notAllowedChars_eq :
    notAllowedChars = [' ', '<', '>', '(', ')', ',', ';', '=', '"'] := by decide

theorem containsAny_eq_false_iff (s chars : List Char) :
    containsAny s chars = false ↔ ∀ c ∈ chars, c ∉ s := by
  simp only [containsAny, List.any_eq_false, List.elem_iff]
  constructor
  · intro h c hc hs
    exact h c hs hc
  · intro h c hc hs
    exact h c hs hc

theorem isCleanEmail_true_iff_of_split (u v : List Char)
    (hu : '@' ∉ u) (hv : '@' ∉ v) :
    isCleanEmail (u ++ '@' :: v) = true ↔
      containsAny (u ++ '@' :: v) notAllowedChars = false ∧
        u ≠ [] ∧ 3 ≤ v.length ∧ '.' ∈ v := by
  have hcount : (u ++ '@' :: v).count '@' = 1 := by
    simp [List.count_append, List.count_cons,
      List.count_eq_zero.mpr hu, List.count_eq_zero.mpr hv]
  have hsplit := goSplit_two_of_split '@' u v hu hv
  cases hca : containsAny (u ++ '@' :: v) notAllowedChars with
  | true => simp [isCleanEmail, hca]
  | false =>
    simp [isCleanEmail, hca, hcount, hsplit, List.length_eq_zero, and_assoc]

/-- Claim C6: for every string `s` not prefixed by `SRS0=` or `SRS1=`, the
clean-email check accepts `s` if and only if `s` contains none of space, `<`,
`>`, `(`, `)`, `,`, `;`, `=`, `"`; contains exactly one `@`; has a non-empty
part before the `@`; and the part after the `@` has at least 3 characters and
contains at least one `.`.  Otherwise the address is unrecognized. -/
theorem C6_isCleanEmail_iff (s : List Char)
    (_h0 : "SRS0=".toList.isPrefixOf s = false)
    (_h1 : "SRS1=".toList.isPrefixOf s = false) :
    isCleanEmail s = true ↔
      (' ' ∉ s ∧ '<' ∉ s ∧ '>' ∉ s ∧ '(' ∉ s ∧ ')' ∉ s ∧ ',' ∉ s ∧
        ';' ∉ s ∧ '=' ∉ s ∧ '"' ∉ s) ∧
      s.count '@' = 1 ∧
      s.takeWhile (fun c => c != '@') ≠ [] ∧
      3 ≤ ((s.dropWhile (fun c => c != '@')).drop 1).length ∧
      '.' ∈ (s.dropWhile (fun c => c != '@')).drop 1 := by
  have hforbid_iff : containsAny s notAllowedChars = false ↔
      (' ' ∉ s ∧ '<' ∉ s ∧ '>' ∉ s ∧ '(' ∉ s ∧ ')' ∉ s ∧ ',' ∉ s ∧
        ';' ∉ s ∧ '=' ∉ s ∧ '"' ∉ s) := by
    rw [containsAny_eq_false_iff, notAllowedChars_eq]
    simp [List.forall_mem_cons]
  constructor
  · intro htrue
    have hcount : s.count '@' = 1 := by
      by_contra hne
      simp [isCleanEmail, hne] at htrue
    obtain ⟨u, v, hs, hu, hv⟩ := count_eq_one_split hcount
    subst hs
    rw [isCleanEmail_true_iff_of_split u v hu hv] at htrue
    obtain ⟨hforbid, hune, hvlen, hdot⟩ := htrue
    refine ⟨hforbid_iff.mp hforbid, hcount, ?_, ?_, ?_⟩
    · rw [takeWhile_bne_append '@' u v hu]
      exact hune
    · rw [dropWhile_bne_append '@' u v hu]
      simpa using hvlen
    · rw [dropWhile_bne_append '@' u v hu]
      simpa using hdot
  · rintro ⟨hforbid, hcount, htake, hlen3, hdot⟩
    obtain ⟨u, v, hs, hu, hv⟩ := count_eq_one_split hcount
    subst hs
    rw [takeWhile_bne_append '@' u v hu] at htake
    rw [dropWhile_bne_append '@' u v hu] at hlen3 hdot
    rw [isCleanEmail_true_iff_of_split u v hu hv]
    refine ⟨hforbid_iff.mpr hforbid, htake, by simpa using hlen3, by simpa using hdot⟩

/-- Claim C6, instantiated at `user@example.com` (accepted). -/
theorem C6_isCleanEmail_iff_witness :
    isCleanEmail "user@example.com".toList = true :=
  (C6_isCleanEmail_iff "user@example.com".toList (by decide) (by decide)).mpr
    (by decide)

theorem respondToAddress_ends_newline (a : List Char) (cfg : Config) :
    ∃ body, respondToAddress a cfg = body ++ ['\n'] := by
  unfold respondToAddress
  split
  · split
    · exact ⟨"200 ".toList ++ a, by simp [ok200]⟩
    · split
      · exact ⟨"200 ".toList ++ cfg.fallbackAddress, by simp [ok200]⟩
      · exact ⟨"500 invalid request".toList, by decide⟩
  · split
    · split
      · exact ⟨"200 ".toList ++ cfg.fallbackAddress, by simp [ok200]⟩
      · exact ⟨"500 invalid request".toList, by decide⟩
    · rename_i x decoded heq
      exact ⟨"200 ".toList ++ decoded, by simp [ok200]⟩

/-- Claim C9: for every accepted connection, on every control path the
handler writes exactly one response line, terminated by a newline, and then
closes the connection. -/
theorem C9_handle_single_response (r : ReadResult) (cfg : Config) :
    (∃ body, (handle r cfg).writes = [body ++ ['\n']]) ∧
      (handle r cfg).closed = true := by
  cases r with
  | err =>
    refine ⟨⟨"500 read error".toList, ?_⟩, rfl⟩
    show ["500 read error\n".toList] = ["500 read error".toList ++ ['\n']]
    decide
  | ok rawLine =>
    simp only [handle]
    split
    · refine ⟨⟨"500 invalid request".toList, ?_⟩, rfl⟩
      show ["500 invalid request\n".toList] =
        ["500 invalid request".toList ++ ['\n']]
      decide
    · obtain ⟨body, hbody⟩ :=
        respondToAddress_ends_newline
          (trimSpace ((trimSpace rawLine).drop 4)) cfg
      exact ⟨⟨body, by simp [hbody]⟩, rfl⟩

/-- Claim C8: the handler trims the line; if the trimmed line does not start
with the literal token `get ` the response is exactly `500 invalid request`;
otherwise the candidate address is the trimmed remainder after `get `, handed
to the classification/response logic. -/
theorem C8_command_token (line : List Char) (cfg : Config) :
    ("get ".toList.isPrefixOf (trimSpace line) = false →
      handle (.ok line) cfg = ⟨["500 invalid request\n".toList], true⟩) ∧
    ("get ".toList.isPrefixOf (trimSpace line) = true →
      handle (.ok line) cfg =
        ⟨[respondToAddress (trimSpace ((trimSpace line).drop 4)) cfg],
          true⟩) := by
  constructor
  · intro h
    have hc : ¬ ("get ".toList.isPrefixOf (trimSpace line) = true) := by
      rw [h]
      decide
    simp only [handle]
    rw [if_pos hc]
  · intro h
    simp only [handle]
    rw [if_neg (not_not_intro h)]

/-- Claim C8, instantiated: `put something` is rejected with
`500 invalid request`, and a `get` line reaches the responder with the
trimmed remainder. -/
theorem C8_command_token_witness :
    handle (.ok "put something".toList) cfgNoFallback =
      ⟨["500 invalid request\n".toList], true⟩ ∧
    handle (.ok "get user@example.com".toList) cfgNoFallback =
      ⟨[respondToAddress
          (trimSpace ((trimSpace "get user@example.com".toList).drop 4))
          cfgNoFallback], true⟩ :=
  ⟨(C8_command_token "put something".toList cfgNoFallback).1 (by decide),
   (C8_command_token "get user@example.com".toList cfgNoFallback).2
     (by decide)⟩

/-- Claim C7: for every request line whose extracted candidate address is not
SRS-prefixed and satisfies the clean-email rules, the handler responds
`200 <address>` with the address unchanged. -/
theorem C7_clean_pass_through (line : List Char) (cfg : Config)
    (address : List Char)
    (haddr : address = trimSpace ((trimSpace line).drop 4))
    (hget : "get ".toList.isPrefixOf (trimSpace line) = true)
    (hsrs : ("SRS0=".toList.isPrefixOf address ||
      "SRS1=".toList.isPrefixOf address) = false)
    (hclean : isCleanEmail address = true) :
    (handle (.ok line) cfg).writes = ["200 ".toList ++ address ++ ['\n']] := by
  subst haddr
  simp only [handle]
  rw [if_neg (not_not_intro hget)]
  have hsrsc : ¬ (("SRS0=".toList.isPrefixOf
      (trimSpace ((trimSpace line).drop 4)) ||
      "SRS1=".toList.isPrefixOf
        (trimSpace ((trimSpace line).drop 4))) = true) := by
    rw [hsrs]
    decide
  simp only [respondToAddress]
  rw [if_pos hsrsc, if_pos hclean]
  simp [ok200]

/-- Claim C7, instantiated at `get user@example.com`. -/
theorem C7_clean_pass_through_witness :
    (handle (.ok "get user@example.com".toList) cfgWithFallback).writes =
      ["200 ".toList ++
        trimSpace ((trimSpace "get user@example.com".toList).drop 4) ++
        ['\n']] :=
  C7_clean_pass_through "get user@example.com".toList cfgWithFallback
    (trimSpace ((trimSpace "get user@example.com".toList).drop 4)) rfl
    (by decide) (by decide) (by decide)

/-- Claim C5: for every request whose extracted candidate address is
unrecognized (not SRS-prefixed and not clean) or whose SRS decoding fails,
the handler's only response is `200 <fallback>` when a fallback address is
configured and `500 invalid request` when it is not. -/
theorem C5_fallback_policy (line : List Char) (cfg : Config)
    (address : List Char)
    (haddr : address = trimSpace ((trimSpace line).drop 4))
    (hget : "get ".toList.isPrefixOf (trimSpace line) = true)
    (hbad :
      (("SRS0=".toList.isPrefixOf address ||
          "SRS1=".toList.isPrefixOf address) = false ∧
        isCleanEmail address = false) ∨
      (("SRS0=".toList.isPrefixOf address ||
          "SRS1=".toList.isPrefixOf address) = true ∧
        decodeSRS address = none)) :
    (handle (.ok line) cfg).writes =
      [if cfg.fallbackAddress ≠ [] then
        "200 ".toList ++ cfg.fallbackAddress ++ ['\n']
      else
        "500 invalid request\n".toList] := by
  subst haddr
  simp only [handle]
  rw [if_neg (not_not_intro hget)]
  simp only [respondToAddress]
  rcases hbad with ⟨hsrs, hclean⟩ | ⟨hsrs, hdec⟩
  · have hsrsc : ¬ (("SRS0=".toList.isPrefixOf
        (trimSpace ((trimSpace line).drop 4)) ||
        "SRS1=".toList.isPrefixOf
          (trimSpace ((trimSpace line).drop 4))) = true) := by
      rw [hsrs]
      decide
    rw [if_pos hsrsc]
    have hcleanc : ¬ (isCleanEmail
        (trimSpace ((trimSpace line).drop 4)) = true) := by
      rw [hclean]
      decide
    rw [if_neg hcleanc]
    by_cases hfb : cfg.fallbackAddress = []
    · rw [if_neg (not_not_intro hfb), if_neg (not_not_intro hfb)]
    · rw [if_pos hfb, if_pos hfb]
      simp [ok200]
  · rw [if_neg (not_not_intro hsrs)]
    rw [hdec]
    by_cases hfb : cfg.fallbackAddress = []
    · rw [if_neg (not_not_intro hfb), if_neg (not_not_intro hfb)]
    · rw [if_pos hfb, if_pos hfb]
      simp [ok200]

/-- Claim C5, instantiated: `get notanemail` with no fallback configured
yields `500 invalid request`. -/
theorem C5_fallback_policy_witness :
    (handle (.ok "get notanemail".toList) cfgNoFallback).writes =
      [if cfgNoFallback.fallbackAddress ≠ [] then
        "200 ".toList ++ cfgNoFallback.fallbackAddress ++ ['\n']
      else
        "500 invalid request\n".toList] :=
  C5_fallback_policy "get notanemail".toList cfgNoFallback
    (trimSpace ((trimSpace "get notanemail".toList).drop 4)) rfl
    (by decide) (Or.inl ⟨by decide, by decide⟩)

/-- Claim C10: the decoded result of a structurally valid SRS address is not
re-validated against the clean-email rules: the request `get SRS0====`
(empty fourth and fifth fields) is answered with the success line `200 @`,
although `@` is not a clean address. -/
theorem C10_no_revalidation_of_decoded :
    handle (.ok "get SRS0====".toList) cfgNoFallback =
      ⟨["200 @\n".toList], true⟩ ∧
      isCleanEmail "@".toList = false := by
  decide

/-- Claim C1 counterexample: in `main` the privilege drop happens BEFORE the
listening socket is bound, so it is false that it runs after the bind and
before the accept loop. -/
theorem C1_claimed_order_refuted :
    ¬ (mainStartupOrder.count .dropPrivileges = 1 ∧
      mainStartupOrder.indexOf .listenBind <
        mainStartupOrder.indexOf .dropPrivileges ∧
      mainStartupOrder.indexOf .dropPrivileges <
        mainStartupOrder.indexOf .acceptLoop) := by
  decide

/-- Claim C1 as amended: the privilege-reduction step runs exactly once,
before the listening socket is bound, and the bind precedes the accept
loop. -/
theorem C1_amended_drop_once_before_bind :
    mainStartupOrder.count .dropPrivileges = 1 ∧
      mainStartupOrder.indexOf .dropPrivileges <
        mainStartupOrder.indexOf .listenBind ∧
      mainStartupOrder.indexOf .listenBind <
        mainStartupOrder.indexOf .acceptLoop := by
  decide
